import Mathlib

/-!
# Verification of the `onEvents` delegation engine (`src/index.js`)

Shallow embedding of the attribute-driven DOM event delegation engine.
The host DOM is modelled structurally: an element is represented by its
inclusive ancestor chain (deepest node first), so `closest` is a walk
along the chain and `Node.contains` is the (inclusive) suffix relation
on chains.  Registries are association lists; listener bookkeeping is an
explicit listener-state list threaded through attach/detach.
-/

namespace OnEvents

/-- Data carried by one DOM node: an identity and its attribute list
(name/value pairs, first match wins for `getAttribute`). -/
structure ElemData where
  nodeId : Nat
  attrs : List (String × String)
deriving DecidableEq, Repr

/-- An element is its inclusive ancestor chain, deepest (the node itself)
first.  The suffixes of the chain are exactly the inclusive ancestors. -/
abbrev Element := List ElemData

/-- `getAttribute` on the node itself (head of the chain). -/
def getAttribute (el : Element) (name : String) : Option String :=
  match el with
  | [] => none
  | d :: _ => d.attrs.lookup name

/-- Attribute-presence test used by the `[on-type]` selector. -/
def hasAttr (el : Element) (name : String) : Bool :=
  (getAttribute el name).isSome

/-- `Node.contains`: `b` is an inclusive descendant of `a`, i.e. `a`'s
chain is a suffix of `b`'s chain. -/
def contains (a b : Element) : Bool :=
  a == b ||
    match b with
    | [] => false
    | _ :: t => contains a t

/-- `Element.closest("[name]")`: nearest inclusive ancestor carrying the
attribute, i.e. the longest suffix of the chain whose head has it. -/
def closest (name : String) : Element → Option Element
  | [] => none
  | d :: rest =>
      if hasAttr (d :: rest) name then some (d :: rest)
      else closest name rest

/-- A node appearing in an event: either an `Element` or some
non-`Element` node (document, window, text node, ...). -/
abbrev DomNode := Option Element

/-- The parts of a runtime event the engine reads.  `hasComposedPath`
models `typeof event.composedPath === "function"`; `relatedTarget` is
`none` for `null`/`undefined`. -/
structure DomEvent where
  hasComposedPath : Bool
  composedPath : List DomNode
  target : DomNode
  relatedTarget : Option Element
deriving Repr

/-- `src/index.js` lines 129-130: prefer the first entry of the
propagation path when the host exposes one, else fall back to
`event.target`. -/
def startNode (ev : DomEvent) : DomNode :=
  if ev.hasComposedPath then
    match ev.composedPath with
    | [] => ev.target
    | n :: _ => n
  else ev.target

/-- `src/index.js` line 131: `start instanceof Element ?
start.closest(\x7bon-type\x7d) : null`. -/
def matchedElement (ev : DomEvent) (ty : String) : Option Element :=
  match startNode ev with
  | some el => closest ("on-" ++ ty) el
  | none => none

/-- The caller's `actions` object as a finite map from action name to
whether the stored value is callable (`typeof fn === "function"`). -/
abbrev Registry := List (String × Bool)

/-- The observable outcome of one dispatch handler invocation. -/
inductive DispatchResult where
  /-- No matching element, or it lies outside the root: silent return. -/
  | noMatch
  /-- Enter/leave emulation aborted on the related-target check. -/
  | suppressed
  /-- `fn(\x7bevent, element\x7d)` was called for this action name and
  matched element. -/
  | invoked (fnName : String) (element : Element)
  /-- `console.warn` diagnostic naming the action (none models the
  `null` attribute value) and the event type; nothing invoked. -/
  | warnMissing (fnName : Option String) (ty : String)
deriving DecidableEq, Repr

/-- The `console.warn` text of the missing-action diagnostic. -/
def warnText (fnName : Option String) (ty : String) : String :=
  "onEvents: Function '" ++ fnName.getD "null" ++ "' not found for event '"
    ++ ty ++ "'."

/-- The per-type dispatch handler, `src/index.js` lines 126-152.  `ty`
is the *original* requested event name captured by the closure; the
attribute key is `on-` ++ `ty`.  The `fnName = ""` branch reflects JS
string falsiness in `fnName && actions[fnName]`. -/
def handler (actions : Registry) (root : Element) (ty : String)
    (ev : DomEvent) : DispatchResult :=
  match matchedElement ev ty with
  | none => .noMatch
  | some el =>
    if ¬ contains root el then .noMatch
    else if (ty == "mouseenter" || ty == "mouseleave")
        && (match ev.relatedTarget with
            | some rel => contains el rel
            | none => false) then .suppressed
    else
      match getAttribute el ("on-" ++ ty) with
      | none => .warnMissing none ty
      | some fnName =>
        if fnName == "" then .warnMissing (some "") ty
        else
          match actions.lookup fnName with
          | some true => .invoked fnName el
          | _ => .warnMissing (some fnName) ty

/-! ## Event catalog (static tables of `src/index.js`) -/

/-- `validEvents`, `src/index.js` lines 30-38. -/
def validEvents : List String :=
  ["click", "dblclick", "mousedown", "mouseup", "submit", "input", "change",
   "focus", "blur", "focusin", "focusout", "reset", "invalid", "keydown",
   "keyup", "keypress", "mouseenter", "mouseleave", "mouseover", "mouseout",
   "mousemove", "contextmenu", "touchstart", "touchend", "touchmove",
   "scroll", "wheel", "resize", "load", "DOMContentLoaded", "beforeunload",
   "error", "abort", "loadstart", "progress", "timeout", "loadend", "play",
   "pause", "ended", "volumechange", "seeking", "animationend",
   "transitionend"]

/-- `nonDelegableEvents`, `src/index.js` lines 42-50. -/
def nonDelegableEvents : List String :=
  ["scroll", "resize", "load", "beforeunload", "error", "abort",
   "DOMContentLoaded"]

/-- `eventListenerTypeMap`, `src/index.js` lines 56-61. -/
def eventListenerTypeMap : List (String × String) :=
  [("focus", "focusin"), ("blur", "focusout"),
   ("mouseenter", "mouseover"), ("mouseleave", "mouseout")]

/-- `eventListenerTypeMap[type] || type` (`src/index.js` line 126;
no map value is a falsy string, so `lookup.getD` is exact). -/
def listenerTypeFor (ty : String) : String :=
  (eventListenerTypeMap.lookup ty).getD ty

/-- `passiveEvents`, `src/index.js` line 66. -/
def passiveEvents : List String :=
  ["touchstart", "touchmove", "wheel"]

/-! ## Discovery -/

/-- JS `Set.add`: keep insertion order, ignore an already-present key. -/
def addUnique (l : List String) (t : String) : List String :=
  if t ∈ l then l else l ++ [t]

/-- `String.prototype.startsWith(p)`: the first `|p|` characters of `s`
are `p`'s characters (phrased over character lists, which the kernel
evaluates). -/
def strStartsWith (s p : String) : Bool :=
  s.toList.take p.toList.length == p.toList

/-- One attribute's contribution to discovery (`src/index.js` lines
109-114): when the name has the `on-` prefix and the rest (`slice(3)`)
is in the catalog, add it to the used set. -/
def collectStep (a : List String) (attr : String × String) : List String :=
  if strStartsWith attr.1 "on-" then
    if validEvents.contains (attr.1.drop 3) then
      addUnique a (attr.1.drop 3)
    else a
  else a

/-- One element's contribution to discovery (`src/index.js` lines
107-116): fold `collectStep` over its attribute list. -/
def collectAttrs (acc : List String) (attrs : List (String × String)) :
    List String :=
  attrs.foldl collectStep acc

/-- Attribute list of the node itself. -/
def attrsOf (el : Element) : List (String × String) :=
  match el with
  | [] => []
  | d :: _ => d.attrs

/-- `usedEvents`: the set seeded from `preloadEvents` (note: WITHOUT
catalog validation, `src/index.js` line 103) then grown from the
attribute scan of `root.querySelectorAll("*")`, whose result is the
`doc` list. -/
def discover (doc : List Element) (preload : List String) : List String :=
  doc.foldl (fun acc el => collectAttrs acc (attrsOf el))
    (preload.foldl addUnique [])

/-! ## Lifecycle -/

/-- The `actions` option as received: absent/falsy, a truthy
non-object, or an object registry — `!actions || typeof actions !==
"object"` distinguishes exactly these. -/
inductive JsActions where
  | missing
  | nonObject
  | obj (reg : Registry)
deriving DecidableEq, Repr

/-- One entry of the `listeners` array (`src/index.js` line 156):
the effective DOM type subscribed and, standing for the stored handler
closure, the original type it captured. -/
structure ListenerRecord where
  type : String
  handlerFor : String
deriving DecidableEq, Repr

/-- Result of a successful `onEvents` call: the warned-and-skipped
non-delegable types, in order, and the `listeners` array. -/
structure InitResult where
  skipped : List String
  listeners : List ListenerRecord
deriving DecidableEq, Repr

/-- The record built for one used type: subscribe under the remapped
listener type, dispatch for the original type. -/
def recordFor (ty : String) : ListenerRecord :=
  { type := listenerTypeFor ty, handlerFor := ty }

/-- One iteration of the `Array.from(usedEvents).forEach` loop:
non-delegable types are warned and skipped, the rest attached. -/
def attachStep (res : InitResult) (ty : String) : InitResult :=
  if nonDelegableEvents.contains ty then
    { res with skipped := res.skipped ++ [ty] }
  else
    { res with listeners := res.listeners ++ [recordFor ty] }

/-- The `Array.from(usedEvents).forEach` loop, `src/index.js` lines
118-157: skip non-delegable types with a warning, otherwise attach a
handler under the remapped listener type and record it. -/
def attachLoop (used : List String) : InitResult :=
  used.foldl attachStep { skipped := [], listeners := [] }

/-- `onEvents`, `src/index.js` lines 96-164: throw unless `actions` is
an object, then discover and attach. -/
def onEvents (actions : JsActions) (doc : List Element)
    (preload : List String) : Except String InitResult :=
  match actions with
  | .obj _ => .ok (attachLoop (discover doc preload))
  | _ => .error "onEvents: \"actions\" is required and must be an object."

/-- Identity of a handler closure: the instance that built it and the
original type it captured (distinct instances never share closures). -/
abbrev HandlerId := Nat × String

/-- The root's listener bookkeeping: the ordered list of
(DOM type, handler) pairs currently attached. -/
abbrev ListenerState := List (String × HandlerId)

/-- `root.addEventListener`: a no-op when the same type/handler pair is
already attached, else appended. -/
def addEventListener (st : ListenerState) (ty : String) (h : HandlerId) :
    ListenerState :=
  if (ty, h) ∈ st then st else st ++ [(ty, h)]

/-- `root.removeEventListener`: detach the matching pair when present,
silently do nothing when absent. -/
def removeEventListener (st : ListenerState) (ty : String) (h : HandlerId) :
    ListenerState :=
  st.eraseP (fun p => p == (ty, h))

/-- The attachment effect of the init loop on the root's listener
state (`root.addEventListener(listenerType, handler, options)`). -/
def attachAll (iid : Nat) (records : List ListenerRecord)
    (st : ListenerState) : ListenerState :=
  records.foldl (fun s r => addEventListener s r.type (iid, r.handlerFor)) st

/-- The returned `destroy` closure, `src/index.js` lines 159-163:
remove every recorded listener; the records list itself is untouched, so
a second call replays the same removals. -/
def destroy (iid : Nat) (records : List ListenerRecord)
    (st : ListenerState) : ListenerState :=
  records.foldl (fun s r => removeEventListener s r.type (iid, r.handlerFor))
    st

/-- `onEvents` together with its effect on the root's listener state:
on the configuration throw the state is untouched (the check precedes
the loop). -/
def onEventsRun (iid : Nat) (actions : JsActions) (doc : List Element)
    (preload : List String) (st : ListenerState) :
    Except String InitResult × ListenerState :=
  match onEvents actions doc preload with
  | .ok res => (.ok res, attachAll iid res.listeners st)
  | .error e => (.error e, st)

/-- All handlers the host would run for one occurrence of DOM event
type `domType` reaching the root: each record subscribed under that
type, in registration order. -/
def dispatchAll (reg : Registry) (root : Element)
    (records : List ListenerRecord) (domType : String) (ev : DomEvent) :
    List DispatchResult :=
  (records.filter (fun r => r.type == domType)).map
    (fun r => handler reg root r.handlerFor ev)

/-- The enter/leave suppression test of the handler, as one Bool. -/
def suppressTest (ev : DomEvent) (ty : String) (el : Element) : Bool :=
  (ty == "mouseenter" || ty == "mouseleave")
    && (match ev.relatedTarget with
        | some rel => contains el rel
        | none => false)

/-- The (DOM type, handler identity) pairs one instance's records put
into the root's listener state. -/
def pairsOf (iid : Nat) (records : List ListenerRecord) : ListenerState :=
  records.map (fun r => (r.type, (iid, r.handlerFor)))

/-! ## Concrete fixtures -/

/-- The whole-document root scope: its chain is a suffix of every
chain, so it contains every element. -/
def docRoot : Element := []

def demoOuter : Element := [⟨1, [("on-click", "a")]⟩]

def demoInner : Element := ⟨2, [("on-click", "b")]⟩ :: demoOuter

def demoReg : Registry := [("a", true), ("b", true)]

def demoClickEv : DomEvent :=
  { hasComposedPath := true, composedPath := [some demoInner],
    target := some demoInner, relatedTarget := none }

def enterOuter : Element := [⟨1, [("on-mouseenter", "a")]⟩]

def enterInner : Element := ⟨2, []⟩ :: enterOuter

def outsideEl : Element := [⟨3, []⟩]

def enterReg : Registry := [("a", true)]

/-- The `mouseover` occurrence for a pointer move from outside straight
onto the inner element: related target lies outside the matched outer. -/
def evFromOutside : DomEvent :=
  { hasComposedPath := false, composedPath := [], target := some enterInner,
    relatedTarget := some outsideEl }

/-- The `mouseover` occurrence for a pointer move from the inner child
to the outer element itself: related target is outer's descendant. -/
def evInnerToOuter : DomEvent :=
  { hasComposedPath := false, composedPath := [], target := some enterOuter,
    relatedTarget := some enterInner }

def missingEl : Element := [⟨1, [("on-click", "missingFn")]⟩]

def missingEv : DomEvent :=
  { hasComposedPath := false, composedPath := [], target := some missingEl,
    relatedTarget := none }

def emptyAttrEl : Element := [⟨1, [("on-click", "")]⟩]

def emptyAttrEv : DomEvent :=
  { hasComposedPath := false, composedPath := [], target := some emptyAttrEl,
    relatedTarget := none }

def plainEl : Element := [⟨1, []⟩]

def plainEv : DomEvent :=
  { hasComposedPath := false, composedPath := [], target := some plainEl,
    relatedTarget := none }

def scrollEl : Element := [⟨1, [("on-scroll", "s")]⟩]

/-! ## Spec-side characterisation of nearest-ancestor matching -/

/-- Stated from the spec's words: `el` is the nearest inclusive
ancestor of `node` carrying attribute `name` — an inclusive ancestor
(suffix of the chain) that has the attribute and of which every other
attribute-bearing inclusive ancestor is an (inclusive) ancestor. -/
def isNearestInclusiveAncestorWith (name : String) (node el : Element) :
    Prop :=
  el <:+ node ∧ hasAttr el name = true ∧
    ∀ s, s <:+ node → hasAttr s name = true → s <:+ el

/-! ## Lemmas about the DOM model -/

theorem contains_iff (a b : Element) : contains a b = true ↔ a <:+ b := by
  induction b with
  | nil =>
    rw [contains]
    simp [List.suffix_nil]
  | cons d t ih =>
    rw [contains]
    simp [List.suffix_cons_iff, ih]

theorem closest_eq_some_iff (name : String) (node el : Element) :
    closest name node = some el ↔
      isNearestInclusiveAncestorWith name node el := by
  induction node with
  | nil =>
    rw [closest]
    unfold isNearestInclusiveAncestorWith
    simp only [List.suffix_nil]
    constructor
    · intro h; cases h
    · rintro ⟨rfl, hattr, -⟩
      simp [hasAttr, getAttribute] at hattr
  | cons d rest ih =>
    by_cases h : hasAttr (d :: rest) name = true
    · rw [closest, if_pos h]
      constructor
      · intro he
        cases he
        exact ⟨List.suffix_rfl, h, fun s hs _ => hs⟩
      · rintro ⟨hsuf, hattr, hmax⟩
        have hback : (d :: rest) <:+ el := hmax (d :: rest) List.suffix_rfl h
        have : el = d :: rest := hsuf.sublist.antisymm hback.sublist
        rw [this]
    · rw [closest, if_neg h, ih]
      unfold isNearestInclusiveAncestorWith
      constructor
      · rintro ⟨hsuf, hattr, hmax⟩
        refine ⟨hsuf.trans (List.suffix_cons d rest), hattr, fun s hs ha => ?_⟩
        rcases List.suffix_cons_iff.mp hs with rfl | hs'
        · exact absurd ha h
        · exact hmax s hs' ha
      · rintro ⟨hsuf, hattr, hmax⟩
        have hel : el <:+ rest := by
          rcases List.suffix_cons_iff.mp hsuf with rfl | hs'
          · exact absurd hattr h
          · exact hs'
        exact ⟨hel, hattr, fun s hs ha =>
          hmax s (hs.trans (List.suffix_cons d rest)) ha⟩

/-! ## Branch lemmas for the dispatch handler -/

theorem handler_eq (reg : Registry) (root : Element) (ty : String)
    (ev : DomEvent) :
    handler reg root ty ev =
      match matchedElement ev ty with
      | none => .noMatch
      | some el =>
        if ¬ contains root el then .noMatch
        else if suppressTest ev ty el then .suppressed
        else
          match getAttribute el ("on-" ++ ty) with
          | none => .warnMissing none ty
          | some fnName =>
            if fnName == "" then .warnMissing (some "") ty
            else
              match reg.lookup fnName with
              | some true => .invoked fnName el
              | _ => .warnMissing (some fnName) ty := by
  unfold handler suppressTest
  rfl

theorem handler_invoked_elim (reg : Registry) (root : Element) (ty : String)
    (ev : DomEvent) (fn : String) (el : Element)
    (h : handler reg root ty ev = .invoked fn el) :
    matchedElement ev ty = some el ∧ contains root el = true ∧
      getAttribute el ("on-" ++ ty) = some fn ∧ fn ≠ "" ∧
      reg.lookup fn = some true := by
  rw [handler_eq] at h
  cases hm : matchedElement ev ty <;> simp only [hm] at h
  · cases h
  case some el' =>
  by_cases hc : contains root el' = true
  · rw [if_neg (not_not_intro hc)] at h
    by_cases hs : suppressTest ev ty el' = true
    · rw [if_pos hs] at h; cases h
    · rw [if_neg hs] at h
      cases ha : getAttribute el' ("on-" ++ ty) with
      | none =>
        simp only [ha] at h
        cases h
      | some fnName =>
        simp only [ha] at h
        by_cases hne : (fnName == "") = true
        · rw [if_pos hne] at h; cases h
        · rw [if_neg hne] at h
          cases hl : reg.lookup fnName with
          | none =>
            simp only [hl] at h
            cases h
          | some b =>
            simp only [hl] at h
            cases b
            · cases h
            · cases h
              exact ⟨rfl, hc, ha, by simpa using hne, hl⟩
  · rw [if_pos hc] at h
    cases h

theorem handler_noMatch_of (reg : Registry) (root : Element) (ty : String)
    (ev : DomEvent)
    (h : matchedElement ev ty = none ∨
      ∃ el, matchedElement ev ty = some el ∧ contains root el = false) :
    handler reg root ty ev = .noMatch := by
  rw [handler_eq]
  rcases h with h | ⟨el, hm, hc⟩
  · rw [h]
  · simp only [hm]
    rw [if_pos (by simp [hc])]

theorem handler_suppressed_of (reg : Registry) (root : Element) (ty : String)
    (ev : DomEvent) (el rel : Element)
    (hm : matchedElement ev ty = some el)
    (hc : contains root el = true)
    (hty : ty = "mouseenter" ∨ ty = "mouseleave")
    (hr : ev.relatedTarget = some rel)
    (hcont : contains el rel = true) :
    handler reg root ty ev = .suppressed := by
  rw [handler_eq]
  simp only [hm]
  rw [if_neg (not_not_intro hc), if_pos]
  unfold suppressTest
  rw [hr]
  rcases hty with rfl | rfl <;> simp [hcont]

theorem handler_warn_of (reg : Registry) (root : Element) (ty : String)
    (ev : DomEvent) (el : Element) (fn : String)
    (hm : matchedElement ev ty = some el)
    (hc : contains root el = true)
    (hsup : suppressTest ev ty el = false)
    (ha : getAttribute el ("on-" ++ ty) = some fn)
    (hne : fn ≠ "")
    (hl : reg.lookup fn = none ∨ reg.lookup fn = some false) :
    handler reg root ty ev = .warnMissing (some fn) ty := by
  rw [handler_eq]
  simp only [hm, ha]
  rw [if_neg (not_not_intro hc), if_neg (by simp [hsup]),
    if_neg (by simpa using hne)]
  rcases hl with hl | hl <;> simp only [hl]

theorem handler_warn_empty_of (reg : Registry) (root : Element)
    (ty : String) (ev : DomEvent) (el : Element)
    (hm : matchedElement ev ty = some el)
    (hc : contains root el = true)
    (hsup : suppressTest ev ty el = false)
    (ha : getAttribute el ("on-" ++ ty) = some "") :
    handler reg root ty ev = .warnMissing (some "") ty := by
  rw [handler_eq]
  simp only [hm, ha]
  rw [if_neg (not_not_intro hc), if_neg (by simp [hsup]),
    if_pos (beq_self_eq_true "")]

/-! ## Discovery lemmas -/

theorem mem_addUnique (l : List String) (t x : String) :
    x ∈ addUnique l t ↔ x ∈ l ∨ x = t := by
  unfold addUnique
  split
  · next ht =>
    constructor
    · exact Or.inl
    · rintro (hx | rfl)
      · exact hx
      · exact ht
  · simp

theorem nodup_addUnique (l : List String) (t : String) (h : l.Nodup) :
    (addUnique l t).Nodup := by
  unfold addUnique
  split
  · exact h
  · next ht => simpa [List.nodup_append] using ⟨h, ht⟩

theorem mem_foldl_addUnique (pres : List String) (acc : List String)
    (x : String) :
    x ∈ pres.foldl addUnique acc ↔ x ∈ acc ∨ x ∈ pres := by
  induction pres generalizing acc with
  | nil => simp
  | cons p ps ih =>
    rw [List.foldl_cons, ih, mem_addUnique]
    simp only [List.mem_cons]
    tauto

theorem nodup_foldl_addUnique (pres : List String) (acc : List String)
    (h : acc.Nodup) : (pres.foldl addUnique acc).Nodup := by
  induction pres generalizing acc with
  | nil => exact h
  | cons p ps ih => exact ih _ (nodup_addUnique _ _ h)

theorem mem_collectStep_elim (a : List String) (attr : String × String)
    (x : String) (h : x ∈ collectStep a attr) :
    x ∈ a ∨ x ∈ validEvents := by
  unfold collectStep at h
  split at h
  · split at h
    · next hv =>
      rcases (mem_addUnique _ _ _).mp h with hx | rfl
      · exact Or.inl hx
      · exact Or.inr (by simpa using hv)
    · exact Or.inl h
  · exact Or.inl h

theorem mem_collectStep_of_mem (a : List String) (attr : String × String)
    (x : String) (h : x ∈ a) : x ∈ collectStep a attr := by
  unfold collectStep
  split
  · split
    · exact (mem_addUnique _ _ _).mpr (Or.inl h)
    · exact h
  · exact h

theorem nodup_collectStep (a : List String) (attr : String × String)
    (h : a.Nodup) : (collectStep a attr).Nodup := by
  unfold collectStep
  split
  · split
    · exact nodup_addUnique _ _ h
    · exact h
  · exact h

theorem mem_collectAttrs_elim (attrs : List (String × String))
    (acc : List String) (x : String) (h : x ∈ collectAttrs acc attrs) :
    x ∈ acc ∨ x ∈ validEvents := by
  unfold collectAttrs at h
  induction attrs generalizing acc with
  | nil => exact Or.inl h
  | cons a as ih =>
    rw [List.foldl_cons] at h
    rcases ih _ h with hx | hv
    · exact mem_collectStep_elim _ _ _ hx
    · exact Or.inr hv

theorem mem_collectAttrs_of_mem (attrs : List (String × String))
    (acc : List String) (x : String) (h : x ∈ acc) :
    x ∈ collectAttrs acc attrs := by
  unfold collectAttrs
  induction attrs generalizing acc with
  | nil => exact h
  | cons a as ih => exact ih _ (mem_collectStep_of_mem _ _ _ h)

theorem nodup_collectAttrs (attrs : List (String × String))
    (acc : List String) (h : acc.Nodup) : (collectAttrs acc attrs).Nodup := by
  unfold collectAttrs
  induction attrs generalizing acc with
  | nil => exact h
  | cons a as ih => exact ih _ (nodup_collectStep _ _ h)

theorem nodup_docFold (doc : List Element) (acc : List String)
    (h : acc.Nodup) :
    (doc.foldl (fun acc el => collectAttrs acc (attrsOf el)) acc).Nodup := by
  induction doc generalizing acc with
  | nil => exact h
  | cons el els ih => exact ih _ (nodup_collectAttrs _ _ h)

theorem mem_docFold_of_mem (doc : List Element) (acc : List String)
    (x : String) (h : x ∈ acc) :
    x ∈ doc.foldl (fun acc el => collectAttrs acc (attrsOf el)) acc := by
  induction doc generalizing acc with
  | nil => exact h
  | cons el els ih => exact ih _ (mem_collectAttrs_of_mem _ _ _ h)

theorem mem_docFold_elim (doc : List Element) (acc : List String)
    (x : String)
    (h : x ∈ doc.foldl (fun acc el => collectAttrs acc (attrsOf el)) acc) :
    x ∈ acc ∨ x ∈ validEvents := by
  induction doc generalizing acc with
  | nil => exact Or.inl h
  | cons el els ih =>
    rcases ih _ h with hx | hv
    · exact mem_collectAttrs_elim _ _ _ hx
    · exact Or.inr hv

theorem nodup_discover (doc : List Element) (preload : List String) :
    (discover doc preload).Nodup :=
  nodup_docFold _ _ (nodup_foldl_addUnique _ _ List.nodup_nil)

theorem mem_discover_of_preload (doc : List Element)
    (preload : List String) (t : String) (h : t ∈ preload) :
    t ∈ discover doc preload :=
  mem_docFold_of_mem _ _ _ ((mem_foldl_addUnique _ _ _).mpr (Or.inr h))

theorem mem_discover_elim (doc : List Element) (preload : List String)
    (t : String) (h : t ∈ discover doc preload) :
    t ∈ preload ∨ t ∈ validEvents := by
  rcases mem_docFold_elim _ _ _ h with hx | hv
  · rcases (mem_foldl_addUnique _ _ _).mp hx with hn | hp
    · cases hn
    · exact Or.inl hp
  · exact Or.inr hv

/-! ## Attachment-loop lemmas -/

theorem attachLoop_go (used : List String) (acc : InitResult) :
    used.foldl attachStep acc =
      { skipped := acc.skipped ++
          used.filter (fun ty => nonDelegableEvents.contains ty),
        listeners := acc.listeners ++
          (used.filter (fun ty => !nonDelegableEvents.contains ty)).map
            recordFor } := by
  induction used generalizing acc with
  | nil => simp
  | cons ty rest ih =>
    rw [List.foldl_cons, ih]
    by_cases h : ty ∈ nonDelegableEvents <;>
      simp [attachStep, h, List.filter_cons]

theorem attachLoop_eq (used : List String) :
    attachLoop used =
      { skipped := used.filter (fun ty => nonDelegableEvents.contains ty),
        listeners := (used.filter
          (fun ty => !nonDelegableEvents.contains ty)).map recordFor } := by
  rw [attachLoop, attachLoop_go]
  simp

/-- A remapped listener type is never one of the non-delegable names
when the original type is not: the remap table's values (`focusin`,
`focusout`, `mouseover`, `mouseout`) all lie outside that set. -/
theorem listenerTypeFor_not_nonDelegable (ty : String)
    (h : nonDelegableEvents.contains ty = false) :
    nonDelegableEvents.contains (listenerTypeFor ty) = false := by
  by_cases h1 : ty = "focus"
  · subst h1; decide
  by_cases h2 : ty = "blur"
  · subst h2; decide
  by_cases h3 : ty = "mouseenter"
  · subst h3; decide
  by_cases h4 : ty = "mouseleave"
  · subst h4; decide
  have hb1 : (ty == "focus") = false := beq_eq_false_iff_ne.mpr h1
  have hb2 : (ty == "blur") = false := beq_eq_false_iff_ne.mpr h2
  have hb3 : (ty == "mouseenter") = false := beq_eq_false_iff_ne.mpr h3
  have hb4 : (ty == "mouseleave") = false := beq_eq_false_iff_ne.mpr h4
  have hl : eventListenerTypeMap.lookup ty = none := by
    simp [eventListenerTypeMap, List.lookup, hb1, hb2, hb3, hb4]
  rw [listenerTypeFor, hl]
  simpa using h

/-! ## Lifecycle lemmas -/

theorem pairsOf_map_recordFor (iid : Nat) (l : List String) :
    pairsOf iid (l.map recordFor) =
      l.map (fun ty => (listenerTypeFor ty, (iid, ty))) := by
  simp [pairsOf, recordFor, List.map_map]

theorem nodup_pairsOf_map_recordFor (iid : Nat) (l : List String)
    (h : l.Nodup) : (pairsOf iid (l.map recordFor)).Nodup := by
  rw [pairsOf_map_recordFor]
  refine h.map ?_
  intro a b hab
  simpa using congrArg (fun p => p.2.2) hab

theorem attachAll_eq (iid : Nat) (records : List ListenerRecord)
    (st : ListenerState)
    (hnd : (pairsOf iid records).Nodup)
    (hdisj : ∀ p ∈ pairsOf iid records, p ∉ st) :
    attachAll iid records st = st ++ pairsOf iid records := by
  induction records generalizing st with
  | nil => simp [attachAll, pairsOf]
  | cons r rs ih =>
    have hp : (r.type, (iid, r.handlerFor)) ∉ st :=
      hdisj _ (by simp [pairsOf])
    have hstep : addEventListener st r.type (iid, r.handlerFor) =
        st ++ [(r.type, (iid, r.handlerFor))] := by
      rw [addEventListener, if_neg hp]
    rw [attachAll, List.foldl_cons]
    rw [hstep]
    have hnd' : (pairsOf iid rs).Nodup := by
      simpa [pairsOf] using hnd.of_cons
    have hdisj' : ∀ p ∈ pairsOf iid rs,
        p ∉ st ++ [(r.type, (iid, r.handlerFor))] := by
      intro p hp'
      simp only [List.mem_append, List.mem_singleton]
      rintro (hin | rfl)
      · exact hdisj p (by simp [pairsOf]; right; simpa [pairsOf] using hp')
          hin
      · have : (r.type, (iid, r.handlerFor)) ∉ pairsOf iid rs := by
          have := hnd
          simp only [pairsOf, List.map_cons] at this
          exact this.not_mem
        exact this hp'
    have := ih _ hnd' hdisj'
    rw [attachAll] at this
    rw [this]
    simp [pairsOf]

theorem destroy_append (iid : Nat) (records : List ListenerRecord)
    (st : ListenerState)
    (hnd : (pairsOf iid records).Nodup)
    (hdisj : ∀ p ∈ pairsOf iid records, p ∉ st) :
    destroy iid records (st ++ pairsOf iid records) = st := by
  induction records generalizing st with
  | nil => simp [destroy, pairsOf]
  | cons r rs ih =>
    have hp : (r.type, (iid, r.handlerFor)) ∉ st :=
      hdisj _ (by simp [pairsOf])
    rw [destroy, List.foldl_cons]
    have h1 : removeEventListener
        (st ++ pairsOf iid (r :: rs)) r.type (iid, r.handlerFor) =
        st ++ pairsOf iid rs := by
      rw [removeEventListener,
        List.eraseP_append_right _ (fun b hb => by
          simp only [beq_iff_eq]
          rintro rfl
          exact hp hb)]
      simp only [pairsOf, List.map_cons]
      rw [List.eraseP_cons_of_pos (by simp)]
    rw [h1]
    have hnd' : (pairsOf iid rs).Nodup := by
      simpa [pairsOf] using hnd.of_cons
    have hdisj' : ∀ p ∈ pairsOf iid rs, p ∉ st := by
      intro p hp'
      exact hdisj p (by simp [pairsOf]; right; simpa [pairsOf] using hp')
    have := ih _ hnd' hdisj'
    rw [destroy] at this
    exact this

theorem destroy_of_disjoint (iid : Nat) (records : List ListenerRecord)
    (st : ListenerState)
    (hdisj : ∀ p ∈ pairsOf iid records, p ∉ st) :
    destroy iid records st = st := by
  induction records generalizing st with
  | nil => rfl
  | cons r rs ih =>
    have hp : (r.type, (iid, r.handlerFor)) ∉ st :=
      hdisj _ (by simp [pairsOf])
    rw [destroy, List.foldl_cons]
    have h1 : removeEventListener st r.type (iid, r.handlerFor) = st := by
      rw [removeEventListener]
      exact List.eraseP_of_forall_not (fun b hb => by
        simp only [beq_iff_eq]
        rintro rfl
        exact hp hb)
    rw [h1]
    have hdisj' : ∀ p ∈ pairsOf iid rs, p ∉ st := by
      intro p hp'
      exact hdisj p (by simp [pairsOf]; right; simpa [pairsOf] using hp')
    have := ih _ hdisj'
    rw [destroy] at this
    exact this

/-! ## Claim theorems -/

/-- C1: whenever a dispatch invokes an action, the matched element is
the nearest inclusive ancestor of the originating node carrying the
`on-<original type>` attribute (the lookup key is the original requested
name, the one the closure captured, not the remapped listener type), and
the invoked action is that attribute's value; concretely, with
`outer[on-click="a"] > inner[on-click="b"]`, a click whose path starts
at `inner` invokes `b` on `inner` — the one dispatch result invokes
nothing else, so `a` never fires — and initialization attaches exactly
one click listener for that document. -/
theorem C1_nearest_ancestor_dispatch :
    (∀ (reg : Registry) (root : Element) (ty : String) (ev : DomEvent)
        (fn : String) (el : Element),
        handler reg root ty ev = .invoked fn el →
        ∃ start, startNode ev = some start ∧
          isNearestInclusiveAncestorWith ("on-" ++ ty) start el ∧
          getAttribute el ("on-" ++ ty) = some fn)
    ∧ handler demoReg docRoot "click" demoClickEv = .invoked "b" demoInner
    ∧ onEvents (.obj demoReg) [demoOuter, demoInner] [] =
        .ok { skipped := [], listeners := [recordFor "click"] } := by
  refine ⟨?_, by decide, congrArg Except.ok (by decide)⟩
  intro reg root ty ev fn el h
  obtain ⟨hm, -, ha, -, -⟩ := handler_invoked_elim reg root ty ev fn el h
  unfold matchedElement at hm
  cases hs : startNode ev with
  | none => rw [hs] at hm; cases hm
  | some start =>
    rw [hs] at hm
    exact ⟨start, rfl, (closest_eq_some_iff _ _ _).mp hm, ha⟩

/-- Witness for C1: the general part applied to the concrete nested
click dispatch. -/
theorem C1_nearest_ancestor_dispatch_witness :
    ∃ start, startNode demoClickEv = some start ∧
      isNearestInclusiveAncestorWith ("on-" ++ "click") start demoInner ∧
      getAttribute demoInner ("on-" ++ "click") = some "b" :=
  C1_nearest_ancestor_dispatch.1 demoReg docRoot "click" demoClickEv "b"
    demoInner (by decide)

/-- C6: for `mouseenter`/`mouseleave` dispatch, when the related target
exists and is an (inclusive) descendant of the matched element, the
handler aborts without invoking anything; concretely a pointer move from
the inner child onto the matched outer element fires nothing, while a
move from outside onto the inner child fires the action once. -/
theorem C6_enter_leave_emulation :
    (∀ (reg : Registry) (root : Element) (ty : String) (ev : DomEvent)
        (el rel : Element),
        (ty = "mouseenter" ∨ ty = "mouseleave") →
        matchedElement ev ty = some el →
        contains root el = true →
        ev.relatedTarget = some rel →
        contains el rel = true →
        handler reg root ty ev = .suppressed)
    ∧ handler enterReg docRoot "mouseenter" evFromOutside =
        .invoked "a" enterOuter
    ∧ handler enterReg docRoot "mouseenter" evInnerToOuter =
        .suppressed := by
  refine ⟨?_, by decide, by decide⟩
  intro reg root ty ev el rel hty hm hc hr hcont
  exact handler_suppressed_of reg root ty ev el rel hm hc hty hr hcont

/-- Witness for C6: the suppression part applied to the concrete
inner-to-outer pointer move. -/
theorem C6_enter_leave_emulation_witness :
    handler enterReg docRoot "mouseenter" evInnerToOuter = .suppressed :=
  C6_enter_leave_emulation.1 enterReg docRoot "mouseenter" evInnerToOuter
    enterOuter enterInner (Or.inl rfl) (by decide) (by decide) rfl
    (by decide)

/-- C7: when no inclusive ancestor of the originating node carries the
matching attribute, or the matched element lies outside the bound root,
the handler returns `noMatch`: nothing is invoked, no diagnostic is
emitted, and no error is raised. -/
theorem C7_absent_match_no_side_effect :
    ∀ (reg : Registry) (root : Element) (ty : String) (ev : DomEvent),
      (matchedElement ev ty = none ∨
        ∃ el, matchedElement ev ty = some el ∧ contains root el = false) →
      handler reg root ty ev = .noMatch := by
  intro reg root ty ev h
  exact handler_noMatch_of reg root ty ev h

/-- Witness for C7: a click on an element with no `on-click` anywhere
in its chain. -/
theorem C7_absent_match_no_side_effect_witness :
    handler demoReg docRoot "click" plainEv = .noMatch :=
  C7_absent_match_no_side_effect demoReg docRoot "click" plainEv
    (Or.inl (by decide))

/-- C8: when the matched element's attribute names an action that is
absent from the registry or not callable, the handler emits the
non-fatal diagnostic carrying the action name and event type and
invokes nothing (it is a total function, so it never throws);
concretely `on-click="missingFn"` against an empty registry warns. -/
theorem C8_unresolvable_action_warns :
    (∀ (reg : Registry) (root : Element) (ty : String) (ev : DomEvent)
        (el : Element) (fn : String),
        matchedElement ev ty = some el →
        contains root el = true →
        suppressTest ev ty el = false →
        getAttribute el ("on-" ++ ty) = some fn →
        fn ≠ "" →
        (reg.lookup fn = none ∨ reg.lookup fn = some false) →
        handler reg root ty ev = .warnMissing (some fn) ty)
    ∧ handler [] docRoot "click" missingEv =
        .warnMissing (some "missingFn") "click" := by
  refine ⟨?_, by decide⟩
  intro reg root ty ev el fn hm hc hsup ha hne hl
  exact handler_warn_of reg root ty ev el fn hm hc hsup ha hne hl

/-- Witness for C8: the general part applied to the concrete
`missingFn` click. -/
theorem C8_unresolvable_action_warns_witness :
    handler [] docRoot "click" missingEv =
      .warnMissing (some "missingFn") "click" :=
  C8_unresolvable_action_warns.1 [] docRoot "click" missingEv missingEl
    "missingFn" (by decide) (by decide) (by decide) (by decide)
    (by decide) (Or.inl (by decide))

/-- C10: an empty-string attribute value always takes the
missing-action diagnostic branch — even when the registry holds a
callable action under the empty-string key, as in the concrete part,
that action is never invoked. -/
theorem C10_empty_attribute_value_warns :
    (∀ (reg : Registry) (root : Element) (ty : String) (ev : DomEvent)
        (el : Element),
        matchedElement ev ty = some el →
        contains root el = true →
        suppressTest ev ty el = false →
        getAttribute el ("on-" ++ ty) = some "" →
        handler reg root ty ev = .warnMissing (some "") ty)
    ∧ handler [("", true)] docRoot "click" emptyAttrEv =
        .warnMissing (some "") "click" := by
  refine ⟨?_, by decide⟩
  intro reg root ty ev el hm hc hsup ha
  exact handler_warn_empty_of reg root ty ev el hm hc hsup ha

/-- Witness for C10: the general part applied with a registry that maps
the empty string to a callable action. -/
theorem C10_empty_attribute_value_warns_witness :
    handler [("", true)] docRoot "click" emptyAttrEv =
      .warnMissing (some "") "click" :=
  C10_empty_attribute_value_warns.1 [("", true)] docRoot "click"
    emptyAttrEv emptyAttrEl (by decide) (by decide) (by decide) (by decide)

/-- Counterexample to C2: `"foobar"` is outside the valid-event
catalog, yet passing it as a preload entry makes `onEvents` attach a
listener for it — preload entries are never validated
(`src/index.js` line 103 seeds the set directly from `preloadEvents`). -/
theorem C2_counterexample_preload_listener :
    validEvents.contains "foobar" = false ∧
    onEvents (.obj []) [] ["foobar"] =
      .ok { skipped := [],
            listeners := [{ type := "foobar", handlerFor := "foobar" }] } :=
  ⟨by decide, congrArg Except.ok (by decide)⟩

/-- C2 (amended): preload entries are added to the used-event set
without catalog validation — initialization never fails because of
them, and every preload entry outside the non-delegable set gets a
listener attached, catalog member or not; only attribute-derived
candidates are validated (everything discovered is a preload entry or a
catalog member). -/
theorem C2_amended_preload_unvalidated :
    ∀ (reg : Registry) (doc : List Element) (preload : List String)
      (t : String),
      t ∈ preload → nonDelegableEvents.contains t = false →
      (∃ res, onEvents (.obj reg) doc preload = .ok res ∧
        recordFor t ∈ res.listeners)
      ∧ (∀ x ∈ discover doc preload, x ∈ preload ∨ x ∈ validEvents) := by
  intro reg doc preload t hp hnd
  refine ⟨⟨attachLoop (discover doc preload), rfl, ?_⟩,
    fun x hx => mem_discover_elim _ _ _ hx⟩
  rw [attachLoop_eq]
  exact List.mem_map_of_mem _
    (List.mem_filter.mpr ⟨mem_discover_of_preload _ _ _ hp,
      by simpa using hnd⟩)

/-- Witness for C2 (amended): the out-of-catalog preload entry
`"foobar"` on an empty document. -/
theorem C2_amended_preload_unvalidated_witness :
    (∃ res, onEvents (.obj []) [] ["foobar"] = .ok res ∧
      recordFor "foobar" ∈ res.listeners)
    ∧ (∀ x ∈ discover [] ["foobar"],
        x ∈ ["foobar"] ∨ x ∈ validEvents) :=
  C2_amended_preload_unvalidated [] [] ["foobar"] "foobar" (by decide)
    (by decide)

/-- Counterexample to C3: with both `focus` and `focusin` in the
used-event set, the loop deduplicates on the *original* names only, so
two listeners end up attached under the effective type `focusin`. -/
theorem C3_counterexample_double_focusin :
    onEvents (.obj []) [] ["focus", "focusin"] =
      .ok { skipped := [],
            listeners := [{ type := "focusin", handlerFor := "focus" },
                          { type := "focusin", handlerFor := "focusin" }] }
    ∧ ((attachLoop (discover [] ["focus", "focusin"])).listeners.filter
        (fun r => r.type == "focusin")).length = 2 :=
  ⟨congrArg Except.ok (by decide), by decide⟩

/-- C3 (amended): initialize installs exactly one handler per distinct
*original* (pre-remap) used event name that passes the delegability
filter — the listener records are precisely one per such name, in
order — while an effective listener type reached by several original
names carries one listener per name. -/
theorem C3_amended_one_listener_per_original :
    ∀ (reg : Registry) (doc : List Element) (preload : List String)
      (res : InitResult),
      onEvents (.obj reg) doc preload = .ok res →
      (res.listeners.map ListenerRecord.handlerFor).Nodup ∧
      res.listeners = ((discover doc preload).filter
        (fun ty => !nonDelegableEvents.contains ty)).map recordFor := by
  intro reg doc preload res h
  simp only [onEvents] at h
  cases h
  rw [attachLoop_eq]
  refine ⟨?_, rfl⟩
  simp only [List.map_map]
  have hcomp : (ListenerRecord.handlerFor ∘ recordFor) = id := by
    funext ty; rfl
  rw [hcomp, List.map_id]
  exact (nodup_discover doc preload).filter _

/-- Witness for C3 (amended): the `focus`/`focusin` initialization. -/
theorem C3_amended_one_listener_per_original_witness :
    (([{ type := "focusin", handlerFor := "focus" },
       { type := "focusin", handlerFor := "focusin" }] :
        List ListenerRecord).map ListenerRecord.handlerFor).Nodup ∧
    ([{ type := "focusin", handlerFor := "focus" },
      { type := "focusin", handlerFor := "focusin" }] :
        List ListenerRecord) =
      ((discover [] ["focus", "focusin"]).filter
        (fun ty => !nonDelegableEvents.contains ty)).map recordFor :=
  C3_amended_one_listener_per_original [] [] ["focus", "focusin"]
    { skipped := [],
      listeners := [{ type := "focusin", handlerFor := "focus" },
                    { type := "focusin", handlerFor := "focusin" }] }
    (congrArg Except.ok (by decide))

/-- C4: `onEvents` raises the configuration error exactly when
`actions` is missing or a non-object, the root's listener state is
untouched by the throwing call (the check precedes every attachment),
and with an object registry the call always succeeds, whatever the
document, root contents or preload list. -/
theorem C4_actions_check :
    ∀ (iid : Nat) (actions : JsActions) (doc : List Element)
      (preload : List String) (st : ListenerState),
      ((∃ e, (onEventsRun iid actions doc preload st).1 = .error e) ↔
        (actions = .missing ∨ actions = .nonObject))
      ∧ ((actions = .missing ∨ actions = .nonObject) →
          (onEventsRun iid actions doc preload st).2 = st)
      ∧ (∀ reg, actions = .obj reg →
          (onEventsRun iid actions doc preload st).1 =
            .ok (attachLoop (discover doc preload))) := by
  intro iid actions doc preload st
  cases actions <;> simp [onEventsRun, onEvents]

/-- Witness for C4: the throwing call with a missing `actions` leaves
an empty listener state empty. -/
theorem C4_actions_check_witness :
    (onEventsRun 0 JsActions.missing [] [] []).2 = [] :=
  (C4_actions_check 0 JsActions.missing [] [] []).2.1 (Or.inl rfl)

/-- C5: for a type in the fixed non-delegable set, whether requested
via attribute or preload, no listener record carries it (neither as
original nor as effective type), it is skipped with the warning
whenever it was in the used set, and no handler at all is subscribed to
that DOM type, so no action can ever fire for it via delegation. -/
theorem C5_non_delegable_never_listened :
    ∀ (reg : Registry) (doc : List Element) (preload : List String)
      (res : InitResult) (ty : String),
      onEvents (.obj reg) doc preload = .ok res →
      ty ∈ nonDelegableEvents →
      (∀ r ∈ res.listeners, r.handlerFor ≠ ty ∧ r.type ≠ ty)
      ∧ (ty ∈ discover doc preload → ty ∈ res.skipped)
      ∧ (∀ (root : Element) (ev : DomEvent),
          dispatchAll reg root res.listeners ty ev = []) := by
  intro reg doc preload res ty h hty
  simp only [onEvents] at h
  cases h
  rw [attachLoop_eq]
  have hcontains : nonDelegableEvents.contains ty = true := by
    simpa using hty
  have hmain : ∀ r ∈ ((discover doc preload).filter
      (fun ty => !nonDelegableEvents.contains ty)).map recordFor,
      r.handlerFor ≠ ty ∧ r.type ≠ ty := by
    intro r hr
    obtain ⟨t, ht, rfl⟩ := List.mem_map.mp hr
    have htf := List.mem_filter.mp ht
    have hndf : nonDelegableEvents.contains t = false := by
      simpa using htf.2
    constructor
    · intro he
      rw [recordFor] at he
      simp only at he
      rw [he, hcontains] at hndf
      cases hndf
    · intro he
      have := listenerTypeFor_not_nonDelegable t hndf
      rw [recordFor] at he
      simp only at he
      rw [he, hcontains] at this
      cases this
  refine ⟨hmain, ?_, ?_⟩
  · intro hdisc
    exact List.mem_filter.mpr ⟨hdisc, by simpa using hty⟩
  · intro root ev
    rw [dispatchAll]
    have : (((discover doc preload).filter
        (fun ty => !nonDelegableEvents.contains ty)).map recordFor).filter
        (fun r => r.type == ty) = [] := by
      rw [List.filter_eq_nil_iff]
      intro r hr
      simp only [beq_iff_eq]
      exact (hmain r hr).2
    rw [this]
    rfl

/-- Witness for C5: an element requesting `on-scroll` — the type is
skipped with the warning and nothing is attached. -/
theorem C5_non_delegable_never_listened_witness :
    "scroll" ∈ (InitResult.mk ["scroll"] []).skipped :=
  (C5_non_delegable_never_listened [] [scrollEl] []
    (InitResult.mk ["scroll"] []) "scroll"
    (congrArg Except.ok (by decide)) (by decide)).2.1 (by decide)

/-- C9: the teardown returned by `onEvents` detaches every listener
this instance attached, returning the root's listener state to what it
was, and a second (or any later) teardown call is a no-op on that
state: listener removal against already-removed pairs has no effect. -/
theorem C9_teardown_idempotent :
    ∀ (iid : Nat) (reg : Registry) (doc : List Element)
      (preload : List String) (res : InitResult) (st : ListenerState),
      onEvents (.obj reg) doc preload = .ok res →
      (∀ p ∈ st, p.2.1 ≠ iid) →
      destroy iid res.listeners (attachAll iid res.listeners st) = st ∧
      destroy iid res.listeners
          (destroy iid res.listeners (attachAll iid res.listeners st)) =
        st := by
  intro iid reg doc preload res st h hst
  simp only [onEvents] at h
  cases h
  rw [attachLoop_eq]
  simp only
  have hnodup : ((discover doc preload).filter
      (fun ty => !nonDelegableEvents.contains ty)).Nodup :=
    (nodup_discover doc preload).filter _
  have hnd : (pairsOf iid (((discover doc preload).filter
      (fun ty => !nonDelegableEvents.contains ty)).map recordFor)).Nodup :=
    nodup_pairsOf_map_recordFor iid _ hnodup
  have hdisj : ∀ p ∈ pairsOf iid (((discover doc preload).filter
      (fun ty => !nonDelegableEvents.contains ty)).map recordFor),
      p ∉ st := by
    intro p hp hmem
    have hpid : p.2.1 = iid := by
      rw [pairsOf_map_recordFor] at hp
      obtain ⟨t, -, rfl⟩ := List.mem_map.mp hp
      rfl
    exact hst p hmem hpid
  have ha := attachAll_eq iid _ st hnd hdisj
  constructor
  · rw [ha]
    exact destroy_append iid _ st hnd hdisj
  · rw [ha, destroy_append iid _ st hnd hdisj]
    exact destroy_of_disjoint iid _ st hdisj

/-- Witness for C9: a `click`-only initialization attached to an empty
state, torn down twice. -/
theorem C9_teardown_idempotent_witness :
    destroy 0 [recordFor "click"] (attachAll 0 [recordFor "click"] []) = []
    ∧ destroy 0 [recordFor "click"]
        (destroy 0 [recordFor "click"]
          (attachAll 0 [recordFor "click"] [])) = [] :=
  C9_teardown_idempotent 0 [] [] ["click"]
    (InitResult.mk [] [recordFor "click"]) []
    (congrArg Except.ok (by decide)) (by simp)

end OnEvents
